import Mathlib

/-!
Shallow embedding of the room/game controller of the Briscola web application
(`src/Server/src/controllers/roomController.ts`).  The MySQL tables are lists of
rows; each Express handler becomes a pure function from a database state (plus
the request data it reads) to an HTTP response paired with the next state.
SQL `SELECT ... WHERE` becomes `List.filter`, `INSERT` appends a row,
`DELETE ... WHERE` filters the matching rows out, `UPDATE ... WHERE` maps over
the rows.  The nondeterministic `ORDER BY RAND() LIMIT 1` of `drawCard` is
modelled by an extra index parameter choosing among the matching rows.
-/

namespace Briscola

/-- An HTTP response: status code and body.  Handlers that answer with
`res.json`/`res.send` are modelled with status 200 and a body string
(the JSON payload is summarised by a marker string where the claims do not
inspect it). -/
structure Resp where
  status : Nat
  body : String
  deriving Repr, DecidableEq

/-- A row of the `rooms` table.  `id` is the auto-increment primary key,
`code` the short room code, `status` the lifecycle column and
`turn_player_id` the user id of the current turn holder.  `createRoom`
inserts only `code` and `turn_player_id`; the schema defaults supply `id`
(auto increment, modelled as a parameter of `createRoom`) and
`status = "waiting"`. -/
structure Room where
  id : Nat
  code : String
  status : String
  turn_player_id : Nat
  deriving Repr, DecidableEq, Inhabited

/-- A row of the `players` table (a membership record).  `team` is `NULL`
for the creator (the host is inserted without a team), `some 1`/`some 2`
for joiners. -/
structure Player where
  room_code : String
  user_id : Nat
  team : Option Nat
  host : Bool
  in_game : Bool
  deriving Repr, DecidableEq

/-- A row of the `deck` table: one undrawn card of a room.  `id` is the
auto-increment primary key (used by `drawCard`'s `DELETE FROM deck WHERE id = ?`). -/
structure DeckCard where
  id : Nat
  room_code : String
  number : Nat
  seed : Nat
  deriving Repr, DecidableEq

/-- A row of the `hand_cards` table: a card currently held by a player. -/
structure HandCard where
  room_code : String
  player_id : Nat
  number : Nat
  seed : Nat
  deriving Repr, DecidableEq

/-- A row of the `table_cards` table: a card played onto the table. -/
structure TableCard where
  room_code : String
  player_id : Nat
  number : Nat
  seed : Nat
  deriving Repr, DecidableEq

/-- The database state: the five tables the controller touches. -/
structure DB where
  rooms : List Room
  players : List Player
  deck : List DeckCard
  hand_cards : List HandCard
  table_cards : List TableCard
  deriving Repr, DecidableEq

/-- A JavaScript runtime value, just rich enough to express the comparisons the
controller performs.  Arrays and objects are reference types in JavaScript. -/
inductive JsValue where
  | num : Nat → JsValue
  | str : String → JsValue
  | obj : List (String × JsValue) → JsValue
  | arr : List JsValue → JsValue
  deriving Repr

/-- JavaScript strict equality (`===`) for the value shapes this code base
compares.  Primitives compare by value; a value of a non-primitive type
(array, object) compares by reference, so a freshly produced query-result
array is never strictly equal to a number — in particular
`rows === player_id` with `rows` an array and `player_id` a number is
always `false`, whatever their contents. -/
def jsStrictEq : JsValue → JsValue → Bool
  | JsValue.num a, JsValue.num b => a == b
  | JsValue.str a, JsValue.str b => a == b
  | _, _ => false

/-- JavaScript's `String.prototype.split` with a single-character separator:
splits at every occurrence of the separator, keeping empty parts (so
`"a  b"` splits into `["a", "", "b"]` and `""` into `[""]`). -/
def splitOnChar (c : Char) : List Char → List (List Char)
  | [] => [[]]
  | x :: xs =>
    let r := splitOnChar c xs
    if x == c then [] :: r
    else (x :: r.headI) :: r.tail

/-- `extractToken header` models `req.headers.authorization?.split(" ")[1]`:
`none` when the header is absent or has no second space-separated part
(JavaScript's `[1]` past the end yields `undefined`). -/
def extractToken (header : Option String) : Option String :=
  match header with
  | none => none
  | some h => (((splitOnChar ' ' h.data).map String.mk).get? 1)

/-- JavaScript truthiness of the extracted token: `undefined` and the empty
string are falsy, so `if (!token)` rejects exactly these. -/
def tokenPresent (t : Option String) : Bool :=
  match t with
  | none => false
  | some s => !(s == "")

/-- `createRoom` (roomController.ts lines 251–294), after authentication.
The generate-until-unique loop is modelled by taking the generated `code` as a
parameter (theorems that need it assume the code is fresh); `rid` is the
auto-increment id the `rooms` insert receives.  The handler inserts the room
with the caller as `turn_player_id`, then inserts the caller into `players`
with `host = true` (no team), and answers with the code. -/
def createRoom (db : DB) (user_id : Nat) (code : String) (rid : Nat) : Resp × DB :=
  let db1 : DB :=
    { db with rooms := db.rooms ++ [⟨rid, code, "waiting", user_id⟩] }
  let db2 : DB :=
    { db1 with players := db1.players ++ [⟨code, user_id, none, true, false⟩] }
  (⟨200, code⟩, db2)

/-- `deleteRoom` (roomController.ts lines 306–325).  The only check is the
presence of a token in the `Authorization` header (`if (!token)` → 401); the
token is never verified and the caller's membership or host status is never
consulted.  Then `DELETE FROM rooms WHERE code = ?` and "Room deleted". -/
def deleteRoom (db : DB) (header : Option String) (code : String) : Resp × DB :=
  if !(tokenPresent (extractToken header)) then
    (⟨401, "Authorization token is missing"⟩, db)
  else
    (⟨200, "Room deleted"⟩,
      { db with rooms := db.rooms.filter (fun r => !(r.code == code)) })

/-- `joinRoom` (roomController.ts lines 337–381), after authentication.
Counts the players of the room (`SELECT COUNT(*)`), assigns
`team = count % 2 === 0 ? 1 : 2`, and inserts the caller with `host = 0`. -/
def joinRoom (db : DB) (user_id : Nat) (code : String) : Resp × DB :=
  let playerCount := (db.players.filter (fun p => p.room_code == code)).length
  let team := if playerCount % 2 == 0 then 1 else 2
  (⟨200, "Player joined room"⟩,
    { db with players := db.players ++ [⟨code, user_id, some team, false, false⟩] })

/-- `leaveRoom` (roomController.ts lines 395–426), after authentication:
`DELETE FROM players WHERE room_code = ? AND user_id = ?`. -/
def leaveRoom (db : DB) (user_id : Nat) (code : String) : Resp × DB :=
  (⟨200, "Player left room"⟩,
    { db with players :=
        db.players.filter (fun p => !(p.room_code == code && p.user_id == user_id)) })

/-- Modelled from the spec: `generateDeck` lives in
`src/Server/src/utils/generateDeck.ts`, which is absent from the sources; the
spec describes it as a "deterministic cross-product of 10 ranks × 4 suits =
40 cards" with no further ordering guarantee.  Ranks are 1–10 and the four
suit identifiers are 0–3; each card is a `(number, seed)` pair. -/
def generateDeck : List (Nat × Nat) :=
  (List.range 4).flatMap (fun s => (List.range 10).map (fun n => (n + 1, s)))

/-- `startGame` (roomController.ts lines 435–478), after authentication.
Sets `in_game = 1` for every player of the room, sets the room status to
`"in_progress"`, then inserts each card of `generateDeck` into `deck` for the
room.  `firstId` is the auto-increment id given to the first inserted deck
row (consecutive ids for the rest). -/
def startGame (db : DB) (code : String) (firstId : Nat) : Resp × DB :=
  let players1 := db.players.map
    (fun p => if p.room_code == code then { p with in_game := true } else p)
  let rooms1 := db.rooms.map
    (fun r => if r.code == code then { r with status := "in_progress" } else r)
  let newCards := generateDeck.enum.map
    (fun ic => DeckCard.mk (firstId + ic.1) code ic.2.1 ic.2.2)
  (⟨200, "Game started"⟩,
    { db with players := players1, rooms := rooms1, deck := db.deck ++ newCards })

/-- `endGame` (roomController.ts lines 489–508).  The request parameter `id`
is used both as a room code (`SELECT user_id FROM players WHERE room_code = ?`)
and as a numeric room id (`UPDATE rooms SET status = "ended" WHERE id = ?`,
where MySQL coerces the string parameter; modelled as matching rooms whose
decimal id renders equal to the parameter).  It deletes every `hand_cards` row
whose `player_id` is among the selected member ids — with no restriction on the
hand card's own `room_code` — and sets the status. -/
def endGame (db : DB) (id : String) : Resp × DB :=
  let memberIds := (db.players.filter (fun p => p.room_code == id)).map
    (fun p => p.user_id)
  let hands1 := db.hand_cards.filter (fun h => !(memberIds.contains h.player_id))
  let rooms1 := db.rooms.map
    (fun r => if toString r.id == id then { r with status := "ended" } else r)
  (⟨200, "Game ended successfully"⟩,
    { db with hand_cards := hands1, rooms := rooms1 })

/-- `playCard` (roomController.ts lines 521–558), after authentication.
Unconditionally inserts a `table_cards` row for `(code, player_id, number,
seed)`, then deletes every matching `hand_cards` row (which may match
nothing); answers 200 with the played card. -/
def playCard (db : DB) (player_id : Nat) (code : String) (number seed : Nat) :
    Resp × DB :=
  let db1 : DB :=
    { db with table_cards := db.table_cards ++ [⟨code, player_id, number, seed⟩] }
  let hands1 := db1.hand_cards.filter
    (fun h => !(h.room_code == code && h.player_id == player_id &&
                h.number == number && h.seed == seed))
  let db2 : DB := { db1 with hand_cards := hands1 }
  (⟨200, "card played"⟩, db2)

/-- `passTurn` (roomController.ts lines 568–636), after authentication.
Reads the member rows of the room (404 when empty), reads the room row (404
when absent), then evaluates the guard `turnPlayerResult === player_id` —
a JavaScript strict equality between the query-result array and the caller's
numeric id, embedded via `jsStrictEq` — and answers 403 when it holds.
Otherwise it scans the members for the stored turn holder: at the first match
at index `i` it sets `turn_player_id` to member `(i+1) % count` and answers;
when no member matches it sets the turn to the first member. -/
def passTurn (db : DB) (player_id : Nat) (code : String) : Resp × DB :=
  let rows := db.players.filter (fun p => p.room_code == code)
  if rows.length == 0 then
    (⟨404, "Room not found"⟩, db)
  else
    let turnPlayerResult := db.rooms.filter (fun r => r.code == code)
    if turnPlayerResult.length == 0 then
      (⟨404, "Room not found"⟩, db)
    else if jsStrictEq
        (JsValue.arr (turnPlayerResult.map
          (fun r => JsValue.obj [("turn_player_id", JsValue.num r.turn_player_id)])))
        (JsValue.num player_id) then
      (⟨403, "It's not your turn"⟩, db)
    else
      let turn_player_id := (turnPlayerResult.headI).turn_player_id
      let memberIds := rows.map (fun p => p.user_id)
      let nextPlayer :=
        match memberIds.findIdx? (fun u => u == turn_player_id) with
        | some i => memberIds.getD ((i + 1) % memberIds.length) 0
        | none => memberIds.headI
      let rooms1 := db.rooms.map
        (fun r => if r.code == code then { r with turn_player_id := nextPlayer }
                  else r)
      (⟨200, "Turn passed"⟩, { db with rooms := rooms1 })

/-- `drawCard` (roomController.ts lines 648–687), after authentication.
`SELECT * FROM deck WHERE room_code = ? ORDER BY RAND() LIMIT 1` is a
nondeterministic choice among the room's deck rows, modelled by the index
parameter `k` selecting row `k % count`; when the room's deck is empty the
handler answers 404 "No cards left in the deck".  On success it inserts the
drawn card into the player's hand and runs `DELETE FROM deck WHERE id = ?`
with the drawn row's id. -/
def drawCard (db : DB) (player_id : Nat) (code : String) (k : Nat) : Resp × DB :=
  let rows := db.deck.filter (fun c => c.room_code == code)
  match rows.get? (k % rows.length) with
  | none => (⟨404, "No cards left in the deck"⟩, db)
  | some drawnCard =>
    let db1 : DB :=
      { db with hand_cards := db.hand_cards ++
          [⟨code, player_id, drawnCard.number, drawnCard.seed⟩] }
    let db2 : DB :=
      { db1 with deck := db1.deck.filter (fun c => !(c.id == drawnCard.id)) }
    (⟨200, "card drawn"⟩, db2)

/-- `giveUp` (roomController.ts lines 689–726), after authentication.
Sets `in_game = 0` for the caller's membership row, then deletes it. -/
def giveUp (db : DB) (player_id : Nat) (code : String) : Resp × DB :=
  let players1 := db.players.map
    (fun p => if p.room_code == code && p.user_id == player_id then
                { p with in_game := false } else p)
  let players2 := players1.filter
    (fun p => !(p.room_code == code && p.user_id == player_id))
  (⟨200, "gave up"⟩, { db with players := players2 })

end Briscola

namespace Briscola

/-- `===` between an array and a number is always `false`. -/
lemma jsStrictEq_arr_num (l : List JsValue) (n : Nat) :
    jsStrictEq (JsValue.arr l) (JsValue.num n) = false := rfl

/-- A concrete example database: room "A" in progress with three members
(user 10 hosting), two deck cards and one hand card. -/
def exDB : DB :=
  { rooms := [⟨1, "A", "in_progress", 10⟩],
    players := [⟨"A", 10, none, true, true⟩, ⟨"A", 20, some 2, false, true⟩,
                ⟨"A", 30, some 1, false, true⟩],
    deck := [⟨1, "A", 3, 0⟩, ⟨2, "A", 7, 2⟩],
    hand_cards := [⟨"A", 20, 5, 1⟩],
    table_cards := [] }

/-- Matching a `hand_cards` row on all four columns is the same as equality
with the fully specified row. -/
lemma handCard_match_iff (h : HandCard) (code : String) (pid number seed : Nat) :
    (h.room_code == code && h.player_id == pid &&
     h.number == number && h.seed == seed) = true ↔
      h = HandCard.mk code pid number seed := by
  cases h
  simp [HandCard.mk.injEq, and_assoc]

/-- C2: the authorization guard in `passTurn` is a no-op — the handler never
answers 403, because the guard strict-compares the query-result array to the
caller's numeric id; and whenever the room and its members exist, any caller
(turn holder or not) gets "Turn passed". -/
theorem passTurn_guard_noop (db : DB) (player_id : Nat) (code : String) :
    (passTurn db player_id code).1.status ≠ 403 ∧
    ((db.players.filter (fun p => p.room_code == code)) ≠ [] →
      (db.rooms.filter (fun r => r.code == code)) ≠ [] →
      (passTurn db player_id code).1 = ⟨200, "Turn passed"⟩) := by
  unfold passTurn
  simp only [jsStrictEq_arr_num, if_false, Bool.false_eq_true]
  constructor
  · split
    · simp
    · split
      · simp
      · simp
  · intro hp hr
    rw [if_neg, if_neg]
    · simpa using hr
    · simpa using hp

/-- C2 witness: on the concrete room "A" a non-member caller (id 99) passes
the turn successfully. -/
theorem passTurn_guard_noop_witness :
    (passTurn exDB 99 "A").1 = ⟨200, "Turn passed"⟩ :=
  (passTurn_guard_noop exDB 99 "A").2 (by decide) (by decide)

/-- C10: `deleteRoom`'s authorization is presence-only.  It answers 401
exactly when the `Authorization` header carries no token (header absent, no
second space-separated part, or an empty token — all falsy in JavaScript);
with any non-empty token string, whoever the caller is, it deletes the
`rooms` rows with the given code, answers "Room deleted", and touches
nothing else — the token is never verified and the caller's host or
membership status is never consulted (the handler does not even resolve a
user identity). -/
theorem deleteRoom_presence_only (db : DB) (header : Option String) (code : String) :
    ((deleteRoom db header code).1.status = 401 ↔
      tokenPresent (extractToken header) = false) ∧
    (tokenPresent (extractToken header) = true →
      (deleteRoom db header code).1 = ⟨200, "Room deleted"⟩ ∧
      (deleteRoom db header code).2.rooms =
        db.rooms.filter (fun r => !(r.code == code)) ∧
      (deleteRoom db header code).2.players = db.players ∧
      (deleteRoom db header code).2.deck = db.deck ∧
      (deleteRoom db header code).2.hand_cards = db.hand_cards ∧
      (deleteRoom db header code).2.table_cards = db.table_cards) := by
  unfold deleteRoom
  cases h : tokenPresent (extractToken header) <;> simp [h]

/-- C10 witness: a garbage token "Bearer garbage" deletes room "A" while the
missing-token request is refused with 401. -/
theorem deleteRoom_presence_only_witness :
    (deleteRoom exDB (some "Bearer garbage") "A").1 = ⟨200, "Room deleted"⟩ ∧
    (deleteRoom exDB none "A").1.status = 401 :=
  ⟨((deleteRoom_presence_only exDB (some "Bearer garbage") "A").2 (by decide)).1,
   ((deleteRoom_presence_only exDB none "A").1).2 (by decide)⟩

/-- C5: a successful `playCard` whose player holds the card moves it from the
hand to the table: afterwards `table_cards` contains the card attributed to
the player, and no row of the player's hand in that room matches it any
more. -/
theorem playCard_moves_card (db : DB) (pid : Nat) (code : String)
    (number seed : Nat)
    (hheld : HandCard.mk code pid number seed ∈ db.hand_cards) :
    TableCard.mk code pid number seed ∈ (playCard db pid code number seed).2.table_cards ∧
    ∀ h ∈ (playCard db pid code number seed).2.hand_cards,
      ¬(h.room_code = code ∧ h.player_id = pid ∧ h.number = number ∧ h.seed = seed) := by
  unfold playCard
  constructor
  · simp
  · intro h hmem hcontra
    obtain ⟨h1, h2, h3, h4⟩ := hcontra
    rw [List.mem_filter] at hmem
    have : h = HandCard.mk code pid number seed := by
      cases h; simp_all
    simp [this] at hmem

/-- C5 witness: player 20 plays the held card (5,1) in room "A"; the table
gains it. -/
theorem playCard_moves_card_witness :
    TableCard.mk "A" 20 5 1 ∈ (playCard exDB 20 "A" 5 1).2.table_cards :=
  (playCard_moves_card exDB 20 "A" 5 1 (by decide)).1

/-- C6: `playCard` does not verify possession.  When no row of the player's
hand matches the card, the call still completes with status 200, appends the
table-card row all the same (a phantom card the player never held), and
leaves `hand_cards` unchanged (the delete matches nothing). -/
theorem playCard_no_possession_check (db : DB) (pid : Nat) (code : String)
    (number seed : Nat)
    (hnot : HandCard.mk code pid number seed ∉ db.hand_cards) :
    (playCard db pid code number seed).1.status = 200 ∧
    (playCard db pid code number seed).2.table_cards =
      db.table_cards ++ [TableCard.mk code pid number seed] ∧
    (playCard db pid code number seed).2.hand_cards = db.hand_cards := by
  unfold playCard
  refine ⟨rfl, rfl, ?_⟩
  rw [List.filter_eq_self]
  intro a ha
  rw [Bool.not_eq_true', Bool.eq_false_iff]
  intro hEq
  exact hnot ((handCard_match_iff a code pid number seed).1 hEq ▸ ha)

/-- C6 witness: player 30 holds nothing in room "A", yet playing (9,3)
succeeds and creates the phantom table card. -/
theorem playCard_no_possession_check_witness :
    (playCard exDB 30 "A" 9 3).1.status = 200 ∧
    (playCard exDB 30 "A" 9 3).2.table_cards =
      exDB.table_cards ++ [TableCard.mk "A" 30 9 3] ∧
    (playCard exDB 30 "A" 9 3).2.hand_cards = exDB.hand_cards :=
  playCard_no_possession_check exDB 30 "A" 9 3 (by decide)

end Briscola

namespace Briscola

/-- Filtering out the rows that share a key with a listed row removes exactly
that row when the keys are distinct. -/
lemma filter_key_erase {α β : Type _} [DecidableEq α] [DecidableEq β] (f : α → β) :
    ∀ (l : List α) (c : α), (l.map f).Nodup → c ∈ l →
      l.filter (fun x => !(f x == f c)) = l.erase c := by
  intro l
  induction l with
  | nil => intro c _ hc; cases hc
  | cons a t ih =>
    intro c hnd hc
    rw [List.map_cons, List.nodup_cons] at hnd
    by_cases hac : a = c
    · subst hac
      rw [List.filter_cons]
      simp only [beq_self_eq_true, Bool.not_true, Bool.false_eq_true, if_false,
        List.erase_cons_head]
      rw [List.filter_eq_self]
      intro x hx
      rw [Bool.not_eq_true', beq_eq_false_iff_ne]
      intro hfx
      exact hnd.1 (hfx ▸ List.mem_map_of_mem f hx)
    · have hct : c ∈ t := by
        rcases List.mem_cons.1 hc with h | h
        · exact absurd h.symm hac
        · exact h
      have hfa : (f a == f c) = false := by
        rw [beq_eq_false_iff_ne]
        intro h
        exact hnd.1 (h ▸ List.mem_map_of_mem f hct)
      rw [List.filter_cons]
      simp only [hfa, Bool.not_false, if_true]
      rw [List.erase_cons_tail, ih c hnd.2 hct]
      rw [beq_eq_false_iff_ne] at hfa
      intro h
      exact hfa (congrArg f (eq_of_beq h))

/-- C3: when the room's deck is non-empty, `drawCard` inserts one of the
remaining deck rows into the player's hand and deletes exactly that row from
the deck (the room's deck size decreases by one), provided the deck rows have
distinct primary-key ids; when the room's deck is empty it answers 404
"No cards left in the deck" and changes nothing — in particular no hand-card
row is created. -/
theorem drawCard_spec (db : DB) (pid : Nat) (code : String) (k : Nat)
    (hids : (db.deck.map (fun c => c.id)).Nodup) :
    ((db.deck.filter (fun c => c.room_code == code)) ≠ [] →
      (drawCard db pid code k).1.status = 200 ∧
      ∃ c ∈ db.deck.filter (fun x => x.room_code == code),
        (drawCard db pid code k).2.hand_cards =
          db.hand_cards ++ [HandCard.mk code pid c.number c.seed] ∧
        (drawCard db pid code k).2.deck = db.deck.erase c ∧
        ((drawCard db pid code k).2.deck.filter (fun x => x.room_code == code)).length + 1 =
          (db.deck.filter (fun x => x.room_code == code)).length) ∧
    ((db.deck.filter (fun c => c.room_code == code)) = [] →
      (drawCard db pid code k).1 = ⟨404, "No cards left in the deck"⟩ ∧
      (drawCard db pid code k).2 = db) := by
  constructor
  · intro hne
    have hlen : 0 < (db.deck.filter (fun c => c.room_code == code)).length :=
      List.length_pos.2 hne
    have hk : k % (db.deck.filter (fun c => c.room_code == code)).length <
        (db.deck.filter (fun c => c.room_code == code)).length :=
      Nat.mod_lt _ hlen
    simp only [drawCard]
    rw [List.get?_eq_get hk]
    set c := (db.deck.filter (fun x => x.room_code == code)).get
      ⟨k % (db.deck.filter (fun x => x.room_code == code)).length, hk⟩ with hcdef
    have hcmem : c ∈ db.deck.filter (fun x => x.room_code == code) :=
      List.get_mem _ _ hk
    have hcdeck : c ∈ db.deck := (List.mem_filter.1 hcmem).1
    have herase : db.deck.filter (fun x => !(x.id == c.id)) = db.deck.erase c :=
      filter_key_erase (fun x => x.id) db.deck c hids hcdeck
    have hrowsnodup :
        ((db.deck.filter (fun x => x.room_code == code)).map (fun x => x.id)).Nodup :=
      List.Nodup.sublist (List.Sublist.map _ (List.filter_sublist db.deck)) hids
    have herase2 :
        (db.deck.filter (fun x => x.room_code == code)).filter (fun x => !(x.id == c.id)) =
          (db.deck.filter (fun x => x.room_code == code)).erase c :=
      filter_key_erase (fun x => x.id) _ c hrowsnodup hcmem
    refine ⟨rfl, c, hcmem, rfl, herase, ?_⟩
    show ((db.deck.filter (fun x => !(x.id == c.id))).filter
        (fun x => x.room_code == code)).length + 1 = _
    rw [List.filter_comm, herase2, List.length_erase_of_mem hcmem]
    omega
  · intro hemp
    unfold drawCard
    rw [hemp]
    simp

/-- C3 witness: drawing (choice index 0) from room "A"'s two-card deck gives
status 200 and leaves one deck card; drawing from room "Z" (no deck rows)
gives 404 and changes nothing. -/
theorem drawCard_spec_witness :
    (drawCard exDB 20 "A" 0).1.status = 200 ∧
    (drawCard exDB 20 "Z" 0).1 = ⟨404, "No cards left in the deck"⟩ :=
  ⟨((drawCard_spec exDB 20 "A" 0 (by decide)).1 (by decide)).1,
   ((drawCard_spec exDB 20 "Z" 0 (by decide)).2 (by decide)).1⟩

end Briscola

namespace Briscola

/-- A sequence of `joinRoom` calls for the same room, in order. -/
def joinAll (db : DB) (code : String) (users : List Nat) : DB :=
  users.foldl (fun d u => (joinRoom d u code).2) db

/-- `joinRoom` appends exactly one membership row, whose team is decided by
the parity of the current member count. -/
lemma joinRoom_players (db : DB) (u : Nat) (code : String) :
    (joinRoom db u code).2.players =
      db.players ++ [Player.mk code u
        (some (if (db.players.filter (fun p => p.room_code == code)).length % 2 == 0
               then 1 else 2)) false false] := rfl

/-- Team assignments of a run of joins: each join sees the member count at its
turn, so the `i`-th join of the run (0-based) is assigned by the parity of
`initial count + i`. -/
lemma joinAll_teams (code : String) :
    ∀ (users : List Nat) (db : DB),
      ((joinAll db code users).players.filter (fun p => p.room_code == code)).map
          (fun p => p.team) =
        ((db.players.filter (fun p => p.room_code == code)).map (fun p => p.team)) ++
        (List.range users.length).map (fun i =>
          some (if ((db.players.filter (fun p => p.room_code == code)).length + i) % 2 == 0
                then 1 else 2)) := by
  intro users
  induction users with
  | nil => intro db; simp [joinAll]
  | cons u us ih =>
    intro db
    have h1 : joinAll db code (u :: us) = joinAll (joinRoom db u code).2 code us := rfl
    rw [h1, ih]
    have h2 : (joinRoom db u code).2.players.filter (fun p => p.room_code == code) =
        db.players.filter (fun p => p.room_code == code) ++
        [Player.mk code u
          (some (if (db.players.filter (fun p => p.room_code == code)).length % 2 == 0
                 then 1 else 2)) false false] := by
      rw [joinRoom_players, List.filter_append]
      simp
    rw [h2]
    simp only [List.map_append, List.map_cons, List.map_nil, List.length_append,
      List.length_cons, List.length_nil, List.range_succ_eq_map, List.map_map,
      List.append_assoc, List.singleton_append, List.cons_append, List.nil_append]
    congr 1
    congr 1
    apply List.map_congr_left
    intro a _
    simp only [Function.comp, Nat.succ_eq_add_one]
    have h3 : (List.filter (fun p => p.room_code == code) db.players).length + (0 + 1) + a =
        (List.filter (fun p => p.room_code == code) db.players).length + (a + 1) := by
      omega
    rw [h3]

/-- C4: team alternation.  Starting from a fresh room (no player rows for the
code) whose creator was inserted first as host with no team, a sequence of
joins assigns the `j`-th joiner (1-based, so the room's `(j+1)`-st member)
team 1 when the member count `j` it observes is even and team 2 when it is
odd: the creator has no team, the 1st joiner gets team 2, the 2nd joiner
team 1, and so on alternately. -/
theorem joinRoom_team_alternation (db : DB) (creator : Nat) (code : String)
    (rid : Nat) (users : List Nat)
    (hfresh : db.players.filter (fun p => p.room_code == code) = []) :
    (((joinAll (createRoom db creator code rid).2 code users).players.filter
        (fun p => p.room_code == code)).map (fun p => p.team)) =
      none :: (List.range users.length).map
        (fun j => some (if (j + 1) % 2 == 0 then 1 else 2)) := by
  rw [joinAll_teams]
  have h1 : (createRoom db creator code rid).2.players.filter
      (fun p => p.room_code == code) = [Player.mk code creator none true false] := by
    show (db.players ++ [Player.mk code creator none true false]).filter
        (fun p => p.room_code == code) = _
    rw [List.filter_append, hfresh]
    simp
  rw [h1]
  simp only [List.map_cons, List.map_nil, List.length_cons, List.length_nil,
    List.singleton_append, List.nil_append]
  congr 1
  apply List.map_congr_left
  intro a _
  have h3 : 0 + 1 + a = a + 1 := by omega
  simp only [h3]

/-- C4 witness: creator 5 then four joiners 6,7,8,9 into fresh room "R" get
teams none, 2, 1, 2, 1. -/
theorem joinRoom_team_alternation_witness :
    (((joinAll (createRoom exDB 5 "R" 2).2 "R" [6, 7, 8, 9]).players.filter
        (fun p => p.room_code == "R")).map (fun p => p.team)) =
      [none, some 2, some 1, some 2, some 1] := by
  have h := joinRoom_team_alternation exDB 5 "R" 2 [6, 7, 8, 9] (by decide)
  rw [h]
  decide

/-- C7: after `startGame` on a room whose deck is empty (a game not yet
started), every member of the room is `in_game`, the room's status is
`"in_progress"`, and the room's deck is exactly the generated 40-card deck:
40 rows, the cross-product of ranks 1–10 and the 4 suits, with no duplicate
`(number, seed)` pair.  (`generateDeck` is modelled from the spec, its
source file being absent.) -/
theorem startGame_spec (db : DB) (code : String) (firstId : Nat)
    (hdeck : db.deck.filter (fun c => c.room_code == code) = []) :
    (∀ p ∈ (startGame db code firstId).2.players, p.room_code = code → p.in_game = true) ∧
    (∀ r ∈ (startGame db code firstId).2.rooms, r.code = code → r.status = "in_progress") ∧
    ((startGame db code firstId).2.deck.filter (fun c => c.room_code == code)).map
        (fun c => (c.number, c.seed)) = generateDeck ∧
    ((startGame db code firstId).2.deck.filter (fun c => c.room_code == code)).length = 40 ∧
    (((startGame db code firstId).2.deck.filter (fun c => c.room_code == code)).map
        (fun c => (c.number, c.seed))).Nodup := by
  have hnew : (startGame db code firstId).2.deck.filter (fun c => c.room_code == code) =
      generateDeck.enum.map (fun ic => DeckCard.mk (firstId + ic.1) code ic.2.1 ic.2.2) := by
    show (db.deck ++ generateDeck.enum.map
        (fun ic => DeckCard.mk (firstId + ic.1) code ic.2.1 ic.2.2)).filter
        (fun c => c.room_code == code) = _
    rw [List.filter_append, hdeck, List.nil_append, List.filter_eq_self]
    intro a ha
    rw [List.mem_map] at ha
    obtain ⟨ic, _, rfl⟩ := ha
    simp
  refine ⟨?_, ?_, ?_, ?_, ?_⟩
  · intro p hp hcode
    rw [show (startGame db code firstId).2.players = db.players.map
        (fun p => if p.room_code == code then { p with in_game := true } else p) from rfl,
      List.mem_map] at hp
    obtain ⟨q, _, rfl⟩ := hp
    by_cases hq : q.room_code = code
    · simp [hq]
    · rw [if_neg (by simpa using hq)] at hcode ⊢
      exact absurd hcode hq
  · intro r hr hcode
    rw [show (startGame db code firstId).2.rooms = db.rooms.map
        (fun r => if r.code == code then { r with status := "in_progress" } else r) from rfl,
      List.mem_map] at hr
    obtain ⟨q, _, rfl⟩ := hr
    by_cases hq : q.code = code
    · simp [hq]
    · rw [if_neg (by simpa using hq)] at hcode ⊢
      exact absurd hcode hq
  · rw [hnew, List.map_map]
    have : ((fun c : DeckCard => (c.number, c.seed)) ∘
        (fun ic : Nat × (Nat × Nat) => DeckCard.mk (firstId + ic.1) code ic.2.1 ic.2.2)) =
        Prod.snd := by
      funext ic
      simp [Function.comp]
    rw [this, List.enum_map_snd]
  · rw [hnew, List.length_map]
    decide
  · rw [hnew, List.map_map]
    have : ((fun c : DeckCard => (c.number, c.seed)) ∘
        (fun ic : Nat × (Nat × Nat) => DeckCard.mk (firstId + ic.1) code ic.2.1 ic.2.2)) =
        Prod.snd := by
      funext ic
      simp [Function.comp]
    rw [this, List.enum_map_snd]
    decide

/-- C7 witness: starting the game in room "B" of a database where room "B"
has an empty deck yields a 40-card deck for "B". -/
theorem startGame_spec_witness :
    (((startGame exDB "B" 10).2.deck.filter (fun c => c.room_code == "B")).length = 40) :=
  (startGame_spec exDB "B" 10 (by decide)).2.2.2.1

/-- A database exhibiting `endGame`'s cross-room hand deletion: user 5 is a
member of room "A" but holds a card in room "B". -/
def exDB8 : DB :=
  { rooms := [⟨1, "A", "in_progress", 5⟩, ⟨2, "B", "in_progress", 5⟩],
    players := [⟨"A", 5, none, true, true⟩, ⟨"B", 5, none, true, true⟩],
    deck := [],
    hand_cards := [⟨"B", 5, 3, 0⟩],
    table_cards := [] }

/-- C8 counterexample: the claim says hand cards of OTHER rooms are unchanged
by `endGame`, but ending room "A" deletes user 5's hand card that belongs to
room "B" (the delete filters only on `player_id`, not on the hand card's
`room_code`), leaving `hand_cards` empty. -/
theorem endGame_cross_room_deletion :
    exDB8.hand_cards = [HandCard.mk "B" 5 3 0] ∧
    ("B" : String) ≠ "A" ∧
    (endGame exDB8 "A").2.hand_cards = [] := by
  decide

/-- C8 (amended): `endGame id` deletes exactly the hand cards whose
`player_id` is among the members of the room with code `id` — including such
a player's hand cards in other rooms — keeps every hand card of non-members,
and sets the status of the rooms whose id renders equal to the parameter to
`"ended"`; the other tables are untouched. -/
theorem endGame_spec (db : DB) (id : String) :
    (∀ h, h ∈ (endGame db id).2.hand_cards ↔
      (h ∈ db.hand_cards ∧
       h.player_id ∉ (db.players.filter (fun p => p.room_code == id)).map
         (fun p => p.user_id))) ∧
    (∀ r ∈ (endGame db id).2.rooms, toString r.id = id → r.status = "ended") ∧
    (endGame db id).2.players = db.players ∧
    (endGame db id).2.deck = db.deck ∧
    (endGame db id).2.table_cards = db.table_cards := by
  refine ⟨?_, ?_, rfl, rfl, rfl⟩
  · intro h
    show h ∈ db.hand_cards.filter _ ↔ _
    rw [List.mem_filter]
    constructor
    · rintro ⟨hmem, hp⟩
      refine ⟨hmem, ?_⟩
      rw [Bool.not_eq_true'] at hp
      intro hcontra
      rw [← List.elem_iff] at hcontra
      rw [show (List.map (fun p => p.user_id)
          (List.filter (fun p => p.room_code == id) db.players)).contains h.player_id =
          List.elem h.player_id (List.map (fun p => p.user_id)
          (List.filter (fun p => p.room_code == id) db.players)) from rfl] at hp
      rw [hcontra] at hp
      cases hp
    · rintro ⟨hmem, hnotin⟩
      refine ⟨hmem, ?_⟩
      rw [Bool.not_eq_true']
      rw [show (List.map (fun p => p.user_id)
          (List.filter (fun p => p.room_code == id) db.players)).contains h.player_id =
          List.elem h.player_id (List.map (fun p => p.user_id)
          (List.filter (fun p => p.room_code == id) db.players)) from rfl]
      rw [← Bool.not_eq_true]
      intro hcontra
      exact hnotin (List.elem_iff.1 hcontra)
  · intro r hr hcode
    rw [show (endGame db id).2.rooms = db.rooms.map
        (fun r => if toString r.id == id then { r with status := "ended" } else r) from rfl,
      List.mem_map] at hr
    obtain ⟨q, _, rfl⟩ := hr
    by_cases hq : toString q.id = id
    · simp [hq]
    · rw [if_neg (by simpa using hq)] at hcode ⊢
      exact absurd hcode hq

/-- C8 witness for the amended theorem: ending room "A" removes member 5's
hand card; ending by the numeric parameter "1" marks room 1 (code "A")
ended. -/
theorem endGame_spec_witness :
    HandCard.mk "B" 5 3 0 ∉ (endGame exDB8 "A").2.hand_cards ∧
    Room.mk 1 "A" "ended" 5 ∈ (endGame exDB8 "1").2.rooms :=
  ⟨fun hm => (((endGame_spec exDB8 "A").1 (HandCard.mk "B" 5 3 0)).1 hm).2 (by decide),
   have hr : Room.mk 1 "A" "ended" 5 ∈ (endGame exDB8 "1").2.rooms := by decide
   have _ := (endGame_spec exDB8 "1").2.1 (Room.mk 1 "A" "ended" 5) hr rfl
   hr⟩

/-- Number of `host = true` membership rows of a room. -/
def hostCount (db : DB) (code : String) : Nat :=
  (db.players.filter (fun p => p.room_code == code && p.host)).length

/-- Number of membership rows of a room. -/
def memberCount (db : DB) (code : String) : Nat :=
  (db.players.filter (fun p => p.room_code == code)).length

/-- A room "A" with host 1 and plain member 2. -/
def exDB9 : DB :=
  { rooms := [⟨1, "A", "waiting", 1⟩],
    players := [⟨"A", 1, none, true, false⟩, ⟨"A", 2, some 2, false, false⟩],
    deck := [], hand_cards := [], table_cards := [] }

/-- C9 counterexample: neither `leaveRoom` nor `giveUp` preserves the
exactly-one-host invariant.  In `exDB9` room "A" has two members and exactly
one host; after the host (user 1) leaves — or gives up — the room still has
a member but no host at all, since neither operation reassigns the host
flag. -/
theorem leaveRoom_giveUp_drop_host :
    hostCount exDB9 "A" = 1 ∧ memberCount exDB9 "A" = 2 ∧
    hostCount (leaveRoom exDB9 1 "A").2 "A" = 0 ∧
    memberCount (leaveRoom exDB9 1 "A").2 "A" = 1 ∧
    hostCount (giveUp exDB9 1 "A").2 "A" = 0 ∧
    memberCount (giveUp exDB9 1 "A").2 "A" = 1 := by
  decide

/-- The host-or-not and room membership of a player row are untouched by the
`in_game` updates of `startGame` and `giveUp`. -/
lemma filter_hostpred_map_in_game (l : List Player) (f : Player → Player)
    (hf : ∀ p, (f p).room_code = p.room_code ∧ (f p).host = p.host) (code : String) :
    ((l.map f).filter (fun p => p.room_code == code && p.host)).length =
      (l.filter (fun p => p.room_code == code && p.host)).length := by
  rw [← List.countP_eq_length_filter, ← List.countP_eq_length_filter, List.countP_map]
  apply List.countP_congr
  intro p _
  simp [Function.comp, (hf p).1, (hf p).2]

/-- C9 (amended): after `createRoom` on a code with no existing player rows
the creator is the room's unique `host = true` row, and `joinRoom` (inserts
`host = false`), `startGame` (only sets `in_game`), `passTurn`, `drawCard`,
`playCard` and `endGame` (which do not write `players`) preserve every room's
host count exactly.  `leaveRoom` and `giveUp` never increase a host count —
so no operation ever creates a second host — but each can delete the room's
only host while members remain (see the counterexample), so the
exactly-one-host invariant is not preserved by them. -/
theorem host_invariant_amended (db : DB) (code : String) :
    (∀ u rid, db.players.filter (fun p => p.room_code == code) = [] →
      (createRoom db u code rid).2.players.filter
          (fun p => p.room_code == code && p.host) =
        [Player.mk code u none true false]) ∧
    (∀ u c2, hostCount (joinRoom db u c2).2 code = hostCount db code) ∧
    (∀ c2 fid, hostCount (startGame db c2 fid).2 code = hostCount db code) ∧
    (∀ pid c2, (passTurn db pid c2).2.players = db.players) ∧
    (∀ pid c2 k, (drawCard db pid c2 k).2.players = db.players) ∧
    (∀ pid c2 n s, (playCard db pid c2 n s).2.players = db.players) ∧
    (∀ i, (endGame db i).2.players = db.players) ∧
    (∀ u c2, hostCount (leaveRoom db u c2).2 code ≤ hostCount db code) ∧
    (∀ u c2, hostCount (giveUp db u c2).2 code ≤ hostCount db code) := by
  refine ⟨?_, ?_, ?_, ?_, ?_, ?_, fun _ => rfl, ?_, ?_⟩
  · intro u rid hfresh
    show ((db.players ++ [Player.mk code u none true false]).filter
        (fun p => p.room_code == code && p.host)) = _
    rw [List.filter_append]
    have h1 : db.players.filter (fun p => p.room_code == code && p.host) = [] := by
      rw [List.filter_eq_nil_iff] at hfresh ⊢
      intro a ha
      have := hfresh a ha
      simp_all
    rw [h1]
    simp
  · intro u c2
    show ((db.players ++ [Player.mk c2 u _ false false]).filter
        (fun p => p.room_code == code && p.host)).length = _
    rw [List.filter_append]
    simp [hostCount]
  · intro c2 fid
    exact filter_hostpred_map_in_game db.players _ (fun p => by
      by_cases h : p.room_code == c2 <;> simp [h]) code
  · intro pid c2
    show (passTurn db pid c2).2.players = db.players
    simp only [passTurn]
    split
    · rfl
    · split
      · rfl
      · split
        · rfl
        · rfl
  · intro pid c2 k
    show (drawCard db pid c2 k).2.players = db.players
    simp only [drawCard]
    split
    · rfl
    · rfl
  · intro pid c2 n s
    rfl
  · intro u c2
    unfold hostCount leaveRoom
    rw [List.filter_comm]
    exact List.length_filter_le _ _
  · intro u c2
    show ((giveUp db u c2).2.players.filter
        (fun p => p.room_code == code && p.host)).length ≤ hostCount db code
    simp only [giveUp]
    rw [List.filter_comm]
    refine le_trans (List.length_filter_le _ _) ?_
    exact le_of_eq (filter_hostpred_map_in_game db.players _ (fun p => by
      by_cases h : p.room_code == c2 && p.user_id == u <;> simp [h]) code)

/-- C9 witness for the amended theorem: creating room "C" (fresh code) in the
example database makes user 7 its unique host row, and a join never changes a
host count. -/
theorem host_invariant_amended_witness :
    (createRoom exDB 7 "C" 3).2.players.filter
        (fun p => p.room_code == "C" && p.host) = [Player.mk "C" 7 none true false] ∧
    hostCount (joinRoom exDB 8 "A").2 "A" = hostCount exDB "A" :=
  ⟨(host_invariant_amended exDB "C").1 7 3 (by decide),
   (host_invariant_amended exDB "A").2.1 8 "A"⟩

/-- On a duplicate-free list, scanning for the element at index `i` finds
exactly index `i`. -/
lemma findIdx?_get_of_nodup :
    ∀ (ms : List Nat) (i : Nat) (hi : i < ms.length), ms.Nodup →
      ms.findIdx? (fun u => u == ms.get ⟨i, hi⟩) = some i := by
  intro ms
  induction ms with
  | nil => intro i hi _; exact absurd hi (Nat.not_lt_zero i)
  | cons a t ih =>
    intro i hi hnd
    rw [List.nodup_cons] at hnd
    cases i with
    | zero =>
      rw [List.findIdx?_cons]
      simp
    | succ j =>
      have hj : j < t.length := by simpa using hi
      rw [List.findIdx?_cons]
      have hget : (a :: t).get ⟨j + 1, hi⟩ = t.get ⟨j, hj⟩ := rfl
      rw [hget]
      have hne : (a == t.get ⟨j, hj⟩) = false := by
        rw [beq_eq_false_iff_ne]
        intro h
        exact hnd.1 (h ▸ List.get_mem t j hj)
      rw [hne]
      simp only [Bool.false_eq_true, if_false]
      rw [List.findIdx?_succ, ih j hj hnd.2]
      rfl

/-- Computation of `passTurn`'s success branch: when the room row is unique
and the member list is non-empty, the handler answers "Turn passed" and
rewrites the room's `turn_player_id` with the scanned-for next member. -/
lemma passTurn_eq_of_room (db : DB) (pid : Nat) (code : String) (r : Room)
    (hr : db.rooms.filter (fun x => x.code == code) = [r])
    (hne : (db.players.filter (fun p => p.room_code == code)).length ≠ 0) :
    passTurn db pid code =
      (⟨200, "Turn passed"⟩,
        { db with rooms := db.rooms.map (fun x =>
            if x.code == code then
              { x with turn_player_id :=
                  (match ((db.players.filter (fun p => p.room_code == code)).map
                      (fun p => p.user_id)).findIdx?
                      (fun u => u == r.turn_player_id) with
                   | some i =>
                     ((db.players.filter (fun p => p.room_code == code)).map
                         (fun p => p.user_id)).getD
                       ((i + 1) %
                         ((db.players.filter (fun p => p.room_code == code)).map
                             (fun p => p.user_id)).length) 0
                   | none =>
                     ((db.players.filter (fun p => p.room_code == code)).map
                         (fun p => p.user_id)).headI) }
            else x) }) := by
  simp only [passTurn, hr]
  rw [if_neg (by simpa using hne), if_neg (by simp)]
  rw [if_neg (by simp [jsStrictEq_arr_num])]
  rfl

/-- Updating `turn_player_id` of the rooms matching a code maps the unique
matching row to its updated copy. -/
lemma rooms_update_filter (db : DB) (code : String) (r : Room) (v : Nat)
    (hr : db.rooms.filter (fun x => x.code == code) = [r]) :
    ((db.rooms.map (fun x =>
        if x.code == code then { x with turn_player_id := v } else x)).filter
      (fun x => x.code == code)) = [{ r with turn_player_id := v }] := by
  have hrcode : (r.code == code) = true := by
    have hm : r ∈ db.rooms.filter (fun x => x.code == code) := by
      rw [hr]; exact List.mem_singleton.2 rfl
    exact (List.mem_filter.1 hm).2
  rw [List.filter_map]
  have hpf : ((fun x : Room => x.code == code) ∘
      (fun x => if x.code == code then { x with turn_player_id := v } else x)) =
      (fun x : Room => x.code == code) := by
    funext x
    simp only [Function.comp]
    by_cases h : (x.code == code) = true
    · rw [if_pos h]
    · rw [if_neg h]
  rw [hpf, hr, List.map_cons, List.map_nil, if_pos hrcode]

/-- C1: `passTurn` rotates the turn cyclically through the stored member
list.  For a room whose row is unique for its code and whose members (in
storage order, without duplicates) are `ms`, if the stored turn holder is
member `i` then a pass answers "Turn passed" and sets the turn to member
`(i+1) % ms.length` — so for members [A,B,C] starting at A repeated passes
yield A, B, C, A, ... — and if the stored holder is not among the members
the turn is set to the first member. -/
theorem passTurn_cyclic (db : DB) (pid : Nat) (code : String) (r : Room)
    (ms : List Nat)
    (hr : db.rooms.filter (fun x => x.code == code) = [r])
    (hms : ms = (db.players.filter (fun p => p.room_code == code)).map
      (fun p => p.user_id)) :
    (∀ i (hi : i < ms.length), ms.Nodup → r.turn_player_id = ms.get ⟨i, hi⟩ →
      (passTurn db pid code).1 = ⟨200, "Turn passed"⟩ ∧
      ((passTurn db pid code).2.rooms.filter (fun x => x.code == code)).map
          (fun x => x.turn_player_id) = [ms.getD ((i + 1) % ms.length) 0]) ∧
    (ms ≠ [] → r.turn_player_id ∉ ms →
      (passTurn db pid code).1 = ⟨200, "Turn passed"⟩ ∧
      ((passTurn db pid code).2.rooms.filter (fun x => x.code == code)).map
          (fun x => x.turn_player_id) = [ms.headI]) := by
  constructor
  · intro i hi hnd hturn
    have hne : (db.players.filter (fun p => p.room_code == code)).length ≠ 0 := by
      rw [hms, List.length_map] at hi
      omega
    rw [passTurn_eq_of_room db pid code r hr hne]
    refine ⟨rfl, ?_⟩
    subst hms
    rw [hturn, findIdx?_get_of_nodup _ i hi hnd]
    rw [rooms_update_filter db code r _ hr]
    rfl
  · intro hmsne hnotin
    have hne : (db.players.filter (fun p => p.room_code == code)).length ≠ 0 := by
      intro h
      rw [List.length_eq_zero] at h
      rw [hms, h] at hmsne
      exact hmsne rfl
    rw [passTurn_eq_of_room db pid code r hr hne]
    refine ⟨rfl, ?_⟩
    have hfind : ((db.players.filter (fun p => p.room_code == code)).map
        (fun p => p.user_id)).findIdx? (fun u => u == r.turn_player_id) = none := by
      rw [List.findIdx?_eq_none_iff]
      intro x hx
      rw [beq_eq_false_iff_ne]
      intro h
      rw [hms] at hnotin
      exact hnotin (h ▸ hx)
    rw [hfind, rooms_update_filter db code r _ hr]
    rw [hms]
    rfl

/-- C1 witness: in room "A" with members [10, 20, 30] and the turn stored on
member 10 (index 0), one pass moves the turn to member 20 (index 1). -/
theorem passTurn_cyclic_witness :
    (passTurn exDB 99 "A").1 = ⟨200, "Turn passed"⟩ ∧
    ((passTurn exDB 99 "A").2.rooms.filter (fun x => x.code == "A")).map
        (fun x => x.turn_player_id) = [[10, 20, 30].getD ((0 + 1) % 3) 0] :=
  (passTurn_cyclic exDB 99 "A" (Room.mk 1 "A" "in_progress" 10) [10, 20, 30]
      (by decide) (by decide)).1 0 (by decide) (by decide) (by decide)

end Briscola
